import Mathlib

/-!
Verification of `tools/api-gap-report/src/diff_config.py` and of the
document-fetch-and-diff pipeline that the repository's specification
describes around it.

The Python module consists of three module-level string-constant
assignments and nothing else; it is embedded here as a list of
assignment statements together with the three string values.  The
comparator / expectation-store pipeline (`diff`, `filter`, `load`) is
not present in the supplied sources, so those operations are modelled
from the specification text, as marked on each definition.
-/

/-- `DISCOVERY_DOC_URL` from `diff_config.py` (lines 3-5). -/
def DISCOVERY_DOC_URL : String :=
  "https://www.googleapis.com/discovery/v1/apis/compute/v1/rest"

/-- `DISCOVERY_DOC_URL_BETA` from `diff_config.py` (lines 7-9). -/
def DISCOVERY_DOC_URL_BETA : String :=
  "https://www.googleapis.com/discovery/v1/apis/compute/beta/rest"

/-- `YAML_CONFIG_PATH` from `diff_config.py` (lines 11-13). -/
def YAML_CONFIG_PATH : String :=
  "./config.yaml"

/-- A top-level statement of the embedded Python module.  The module
`diff_config.py` contains only assignments of string literals to names,
so that is the only statement form needed to embed it. -/
inductive PyStmt where
  | assignStr (name : String) (value : String)
deriving DecidableEq, Repr

/-- The statement list of `diff_config.py`, in source order: three
string-literal assignments and nothing else. -/
def diff_config_module : List PyStmt :=
  [.assignStr "DISCOVERY_DOC_URL" DISCOVERY_DOC_URL,
   .assignStr "DISCOVERY_DOC_URL_BETA" DISCOVERY_DOC_URL_BETA,
   .assignStr "YAML_CONFIG_PATH" YAML_CONFIG_PATH]

/-- Executing one statement of the embedded module: binding a string
literal to a name extends the environment and cannot fail. -/
def evalStmt (env : List (String × String)) : PyStmt → Except String (List (String × String))
  | .assignStr n v => .ok (env ++ [(n, v)])

/-- Executing the embedded module statement by statement, from a given
environment. -/
def evalModule : List PyStmt → List (String × String) → Except String (List (String × String))
  | [], env => .ok env
  | s :: rest, env =>
      match evalStmt env s with
      | .ok env2 => evalModule rest env2
      | .error e => .error e

/-- Splitting a character list at every occurrence of the separator
character, used to cut a URL into its `/`-separated path segments. -/
def splitChar (c : Char) : List Char → List (List Char)
  | [] => [[]]
  | a :: rest =>
      let r := splitChar c rest
      if a = c then [] :: r
      else
        match r with
        | [] => [[a]]
        | seg :: segs => (a :: seg) :: segs

/-- Whether the character sequence `needle` occurs contiguously inside
the second list, used to check a string for the `://` marker of a URL. -/
def containsSeq (needle : List Char) : List Char → Bool
  | [] => needle.isPrefixOf []
  | a :: rest => needle.isPrefixOf (a :: rest) || containsSeq needle rest

/-- Modelled from the spec: the repository fragment contains no
path-resolution code, so this models POSIX resolution of a path against
the process's current working directory — an absolute path denotes
itself, while a relative path is interpreted under the working
directory. -/
def resolvePath (cwd p : String) : String :=
  if "/".data.isPrefixOf p.data then p else cwd ++ "/" ++ p

/-- C1: evaluating the embedded `diff_config.py` module performs no
computation, I/O, or control flow — every statement is a string-literal
assignment — always succeeds, and binds exactly the three constants
`DISCOVERY_DOC_URL`, `DISCOVERY_DOC_URL_BETA`, `YAML_CONFIG_PATH` and
nothing else. -/
theorem diff_config_module_binds_exactly_three_strings :
    evalModule diff_config_module [] =
      .ok [("DISCOVERY_DOC_URL", DISCOVERY_DOC_URL),
           ("DISCOVERY_DOC_URL_BETA", DISCOVERY_DOC_URL_BETA),
           ("YAML_CONFIG_PATH", YAML_CONFIG_PATH)] ∧
    diff_config_module.length = 3 := by
  constructor
  · rfl
  · rfl

/-- C2: the stable and beta discovery URLs are equal except for the
version path segment (index 7 of their `/`-separated segments), which is
`v1` in the stable URL and `beta` in the beta URL. -/
theorem discovery_urls_differ_only_in_version_segment :
    (splitChar '/' DISCOVERY_DOC_URL.data).set 7 "beta".data =
      splitChar '/' DISCOVERY_DOC_URL_BETA.data ∧
    (splitChar '/' DISCOVERY_DOC_URL_BETA.data).set 7 "v1".data =
      splitChar '/' DISCOVERY_DOC_URL.data ∧
    (splitChar '/' DISCOVERY_DOC_URL.data)[7]? = some "v1".data ∧
    (splitChar '/' DISCOVERY_DOC_URL_BETA.data)[7]? = some "beta".data := by
  decide

/-- C3: both discovery endpoint constants begin with the scheme
`https://`. -/
theorem discovery_urls_are_https :
    "https://".data.isPrefixOf DISCOVERY_DOC_URL.data = true ∧
    "https://".data.isPrefixOf DISCOVERY_DOC_URL_BETA.data = true := by
  decide

/-- C4: `YAML_CONFIG_PATH` equals `./config.yaml`, a file-system path
(not a URL: it contains no `://`) whose name carries the `.yaml`
extension. -/
theorem yaml_config_path_is_local_yaml_file :
    YAML_CONFIG_PATH = "./config.yaml" ∧
    ".yaml".data.isSuffixOf YAML_CONFIG_PATH.data = true ∧
    containsSeq "://".data YAML_CONFIG_PATH.data = false := by
  refine ⟨rfl, by decide, by decide⟩

/-- C9: both discovery URL constants begin with
`https://www.googleapis.com/discovery/v1/apis/compute/` and end with
`/rest`: the tool is hard-wired to Google's Compute API discovery
documents. -/
theorem discovery_urls_target_google_compute :
    "https://www.googleapis.com/discovery/v1/apis/compute/".data.isPrefixOf
      DISCOVERY_DOC_URL.data = true ∧
    "https://www.googleapis.com/discovery/v1/apis/compute/".data.isPrefixOf
      DISCOVERY_DOC_URL_BETA.data = true ∧
    "/rest".data.isSuffixOf DISCOVERY_DOC_URL.data = true ∧
    "/rest".data.isSuffixOf DISCOVERY_DOC_URL_BETA.data = true := by
  decide

/-- C10: `YAML_CONFIG_PATH` begins with `./` (and is not absolute), so
the file it denotes depends on the process's current working directory:
resolving it under two different working directories yields two
different files. -/
theorem yaml_config_path_is_relative :
    "./".data.isPrefixOf YAML_CONFIG_PATH.data = true ∧
    "/".data.isPrefixOf YAML_CONFIG_PATH.data = false ∧
    resolvePath "/srv/a" YAML_CONFIG_PATH ≠ resolvePath "/srv/b" YAML_CONFIG_PATH := by
  refine ⟨by decide, by decide, by decide⟩

/-! ### The inferred gap-comparator pipeline

The specification describes a comparator pipeline (`diff`, `filter` and
an expectation-store `load`) that is not part of the supplied sources;
the definitions below model it from the specification text. -/

/-- Modelled from the spec: a discovery document is "a tree keyed by
resource name", each inner node mapping names to subtrees and each leaf
holding a scalar descriptor value (HTTP verb, path template, parameter
shape). -/
inductive Doc where
  | leaf (value : String)
  | node (children : List (String × Doc))
deriving Repr

/-- Modelled from the spec: the kind of one structural difference,
`Added | Removed | Changed`. -/
inductive GapKind where
  | added
  | removed
  | changed
deriving DecidableEq, Repr

/-- Modelled from the spec: a Gap is a record
`{path: sequence of string, kind: Added|Removed|Changed, detail:
description}`. -/
structure Gap where
  path : List String
  kind : GapKind
  detail : String
deriving DecidableEq, Repr

/-- Order on children entries: by the character sequence of the key.
The spec prescribes walking both trees "in lock-step by key" with paths
"compared lexicographically". -/
abbrev keyLE (p q : String × Doc) : Prop := p.1.data ≤ q.1.data

instance : DecidableRel keyLE :=
  fun p q => inferInstanceAs (Decidable (p.1.data ≤ q.1.data))

instance : IsTotal (String × Doc) keyLE :=
  ⟨fun p q => le_total p.1.data q.1.data⟩

instance : IsTrans (String × Doc) keyLE :=
  ⟨fun _ _ _ h1 h2 => le_trans h1 h2⟩

mutual

/-- Canonical form of a document: every node's children sorted by key.
This realises the spec's requirement that the walk order be the
lexicographic key order, independent of input key ordering. -/
def canon : Doc → Doc
  | .leaf v => .leaf v
  | .node cs => .node (List.insertionSort keyLE (canonChildren cs))

/-- Canonical form of a children list: each child canonicalised. -/
def canonChildren : List (String × Doc) → List (String × Doc)
  | [] => []
  | (k, d) :: rest => (k, canon d) :: canonChildren rest

end

mutual

/-- Modelled from the spec: the recursive lock-step walk of two
documents.  At matching leaves a differing value emits `Changed`; a key
present only in the beta document emits `Added`; a key present only in
the stable document emits `Removed`; a type mismatch at matching paths
is recorded as `Changed` (spec section 7).  Children are assumed sorted
by key, as `canon` guarantees. -/
def diffDoc (path : List String) : Doc → Doc → List Gap
  | .leaf a, .leaf b =>
      if a = b then [] else [⟨path, .changed, "value changed"⟩]
  | .node cs, .node bs => diffChildren path cs bs
  | .leaf _, .node _ => [⟨path, .changed, "type mismatch"⟩]
  | .node _, .leaf _ => [⟨path, .changed, "type mismatch"⟩]

/-- The lock-step merge walk over two key-sorted children lists. -/
def diffChildren (path : List String) :
    List (String × Doc) → List (String × Doc) → List Gap
  | [], [] => []
  | (k, _) :: r1, [] =>
      ⟨path ++ [k], .removed, "present only in stable"⟩ :: diffChildren path r1 []
  | [], (k, _) :: r2 =>
      ⟨path ++ [k], .added, "present only in beta"⟩ :: diffChildren path [] r2
  | (k1, d1) :: r1, (k2, d2) :: r2 =>
      if k1 = k2 then
        diffDoc (path ++ [k1]) d1 d2 ++ diffChildren path r1 r2
      else if k1.data < k2.data then
        ⟨path ++ [k1], .removed, "present only in stable"⟩ ::
          diffChildren path r1 ((k2, d2) :: r2)
      else
        ⟨path ++ [k2], .added, "present only in beta"⟩ ::
          diffChildren path ((k1, d1) :: r1) r2

end

/-- Numeric index of a gap kind, used for the "path then kind" order on
gap sets. -/
def kindIdx : GapKind → Nat
  | .added => 0
  | .removed => 1
  | .changed => 2

/-- Total order on gaps: by path (lexicographically on the character
sequences of the components), then kind, then detail. -/
def gapLE (g1 g2 : Gap) : Prop :=
  g1.path.map String.data < g2.path.map String.data ∨
    (g1.path.map String.data = g2.path.map String.data ∧
      (kindIdx g1.kind < kindIdx g2.kind ∨
        (kindIdx g1.kind = kindIdx g2.kind ∧ g1.detail.data ≤ g2.detail.data)))

instance : DecidableRel gapLE := fun g1 g2 => by unfold gapLE; infer_instance

instance : IsTotal Gap gapLE := by
  constructor
  intro g1 g2
  rcases lt_trichotomy (g1.path.map String.data) (g2.path.map String.data) with hp | hp | hp
  · exact Or.inl (Or.inl hp)
  · rcases Nat.lt_trichotomy (kindIdx g1.kind) (kindIdx g2.kind) with hk | hk | hk
    · exact Or.inl (Or.inr ⟨hp, Or.inl hk⟩)
    · rcases le_total g1.detail.data g2.detail.data with hd | hd
      · exact Or.inl (Or.inr ⟨hp, Or.inr ⟨hk, hd⟩⟩)
      · exact Or.inr (Or.inr ⟨hp.symm, Or.inr ⟨hk.symm, hd⟩⟩)
    · exact Or.inr (Or.inr ⟨hp.symm, Or.inl hk⟩)
  · exact Or.inr (Or.inl hp)

instance : IsTrans Gap gapLE := by
  constructor
  intro a b c hab hbc
  rcases hab with hab | ⟨hab, hab2⟩
  · rcases hbc with hbc | ⟨hbc, _⟩
    · exact Or.inl (lt_trans hab hbc)
    · exact Or.inl (hbc ▸ hab)
  · rcases hbc with hbc | ⟨hbc, hbc2⟩
    · exact Or.inl (hab ▸ hbc)
    · refine Or.inr ⟨hab.trans hbc, ?_⟩
      rcases hab2 with hk | ⟨hk, hd⟩
      · rcases hbc2 with hk2 | ⟨hk2, _⟩
        · exact Or.inl (Nat.lt_trans hk hk2)
        · exact Or.inl (hk2 ▸ hk)
      · rcases hbc2 with hk2 | ⟨hk2, hd2⟩
        · exact Or.inl (hk ▸ hk2)
        · exact Or.inr ⟨hk.trans hk2, le_trans hd hd2⟩

/-- Sorting a gap set by path, then kind, then detail. -/
def sortGaps (gs : List Gap) : List Gap := List.insertionSort gapLE gs

/-- Modelled from the spec: the comparator
`diff(stable: Discovery Document, beta: Discovery Document) -> Gap Set`:
canonicalise both documents, walk them in lock-step, and produce the
gap sequence in the deterministic "path then kind" order. -/
def diff (stable beta : Doc) : List Gap :=
  sortGaps (diffDoc [] (canon stable) (canon beta))

/-- Modelled from the spec: well-formedness of a discovery document —
it is "a tree keyed by resource name" (a mapping), so the keys at every
node are pairwise distinct. -/
inductive Wf : Doc → Prop where
  | leaf (v : String) : Wf (.leaf v)
  | node {cs : List (String × Doc)} :
      (cs.map Prod.fst).Nodup → (∀ p ∈ cs, Wf p.2) → Wf (.node cs)

mutual

/-- One document is a key-reordering of another: the same tree up to
permuting the children list at every node. -/
inductive Reorder : Doc → Doc → Prop where
  | leaf (v : String) : Reorder (.leaf v) (.leaf v)
  | node {cs mid cs' : List (String × Doc)} :
      ReorderChildren cs mid → mid.Perm cs' → Reorder (.node cs) (.node cs')

/-- Pointwise reordering of children lists: equal keys in place,
subtrees reordered recursively. -/
inductive ReorderChildren : List (String × Doc) → List (String × Doc) → Prop where
  | nil : ReorderChildren [] []
  | cons {k : String} {d d' : Doc} {l l' : List (String × Doc)} :
      Reorder d d' → ReorderChildren l l' →
      ReorderChildren ((k, d) :: l) ((k, d') :: l')

end

theorem string_data_inj {a b : String} (h : a.data = b.data) : a = b := by
  cases a
  cases b
  exact congrArg String.mk h

/-- Strict key order on children entries. -/
abbrev keyLT (p q : String × Doc) : Prop := p.1.data < q.1.data

instance : IsAntisymm (String × Doc) keyLT :=
  ⟨fun _ _ h1 h2 => absurd h2 (lt_asymm h1)⟩

theorem canonChildren_eq_map (l : List (String × Doc)) :
    canonChildren l = l.map (fun p => (p.1, canon p.2)) := by
  induction l with
  | nil => simp [canonChildren]
  | cons p rest ih =>
      cases p with
      | mk k d => simp [canonChildren, ih]

theorem canonChildren_keys (l : List (String × Doc)) :
    (canonChildren l).map Prod.fst = l.map Prod.fst := by
  rw [canonChildren_eq_map, List.map_map]
  rfl

/-- Two key-sorted children lists that are permutations of one another
and have pairwise-distinct keys are equal. -/
theorem sorted_keyed_eq {l1 l2 : List (String × Doc)} (hp : l1.Perm l2)
    (hs1 : l1.Sorted keyLE) (hs2 : l2.Sorted keyLE)
    (hn : (l1.map Prod.fst).Nodup) : l1 = l2 := by
  have hn2 : (l2.map Prod.fst).Nodup := ((hp.map Prod.fst).nodup_iff).mp hn
  have hne1 : l1.Pairwise (fun p q : String × Doc => p.1 ≠ q.1) :=
    List.pairwise_map.mp hn
  have hne2 : l2.Pairwise (fun p q : String × Doc => p.1 ≠ q.1) :=
    List.pairwise_map.mp hn2
  have hlt1 : l1.Pairwise keyLT := by
    refine List.Pairwise.imp ?_ (hs1.and hne1)
    rintro a b ⟨hle, hne⟩
    exact lt_of_le_of_ne hle (fun h => hne (string_data_inj h))
  have hlt2 : l2.Pairwise keyLT := by
    refine List.Pairwise.imp ?_ (hs2.and hne2)
    rintro a b ⟨hle, hne⟩
    exact lt_of_le_of_ne hle (fun h => hne (string_data_inj h))
  exact List.eq_of_perm_of_sorted hp hlt1 hlt2

/-- Canonicalisation is invariant under key-reordering of a well-formed
document: sorting children by key erases any input key ordering. -/
theorem canon_eq_of_reorder {d d' : Doc} (h : Reorder d d') (hw : Wf d) :
    canon d = canon d' := by
  refine @Reorder.rec
    (fun x y _ => Wf x → canon x = canon y)
    (fun l m _ => (∀ p ∈ l, Wf p.2) → canonChildren l = canonChildren m)
    ?_ ?_ ?_ ?_ d d' h hw
  · intro v _
    rfl
  · intro cs mid cs' _ hperm ih hw2
    cases hw2 with
    | node hnd hch =>
        have hcc : canonChildren cs = canonChildren mid := ih hch
        have p2 : (canonChildren mid).Perm (canonChildren cs') := by
          rw [canonChildren_eq_map, canonChildren_eq_map]
          exact hperm.map _
        have p3 : (canonChildren cs).Perm (canonChildren cs') := by
          rw [hcc]
          exact p2
        simp only [canon]
        congr 1
        apply sorted_keyed_eq
        · exact (List.perm_insertionSort keyLE _).trans
            (p3.trans (List.perm_insertionSort keyLE _).symm)
        · exact List.sorted_insertionSort keyLE _
        · exact List.sorted_insertionSort keyLE _
        · have hk := (List.perm_insertionSort keyLE (canonChildren cs)).map Prod.fst
          rw [canonChildren_keys] at hk
          exact (hk.nodup_iff).mpr hnd
  · intro _
    rfl
  · intro k dd dd' l l' _ _ ih1 ih2 hw2
    have h1 : canon dd = canon dd' := ih1 (hw2 (k, dd) (by simp))
    have h2 : canonChildren l = canonChildren l' := ih2 (fun p hp => hw2 p (by simp [hp]))
    simp [canonChildren, h1, h2]

theorem diffChildren_self (path : List String) (cs : List (String × Doc))
    (h : ∀ p ∈ cs, ∀ pth, diffDoc pth p.2 p.2 = []) :
    diffChildren path cs cs = [] := by
  induction cs with
  | nil => simp [diffChildren]
  | cons p rest ih =>
      cases p with
      | mk k d =>
          have h1 := h (k, d) (by simp) (path ++ [k])
          have h2 := ih (fun q hq pth => h q (by simp [hq]) pth)
          simp [diffChildren, h1, h2]

theorem diffDoc_self : ∀ n : Nat, ∀ d : Doc, sizeOf d ≤ n →
    ∀ path, diffDoc path d d = [] := by
  intro n
  induction n with
  | zero =>
      intro d hd
      exfalso
      cases d <;> simp_arith at hd
  | succ n ih =>
      intro d hd path
      cases d with
      | leaf v => simp [diffDoc]
      | node cs =>
          have hsz : sizeOf cs ≤ n := by
            simp_arith at hd
            omega
          simp only [diffDoc]
          apply diffChildren_self
          intro p hp pth
          apply ih
          have h1 : sizeOf p < sizeOf cs := List.sizeOf_lt_of_mem hp
          have h2 : sizeOf p.2 < sizeOf p := by
            cases p
            simp_arith
          omega

/-- C5: for every pair of identical discovery documents, the comparator
`diff` returns the empty Gap Set. -/
theorem diff_identical_empty (d : Doc) : diff d d = [] := by
  unfold diff
  rw [diffDoc_self (sizeOf (canon d)) (canon d) le_rfl []]
  rfl

/-- C6: the comparator is deterministic with respect to input key
ordering: reordering the keys of either well-formed input document does
not change the produced Gap Set, and the Gap Set is ordered by path
(lexicographically on component character sequences) then kind. -/
theorem diff_deterministic_under_key_reordering
    (s s' b b' : Doc) (hs : Wf s) (hb : Wf b)
    (hrs : Reorder s s') (hrb : Reorder b b') :
    diff s b = diff s' b' ∧
    (diff s b).Pairwise (fun g1 g2 =>
      g1.path.map String.data < g2.path.map String.data ∨
        (g1.path.map String.data = g2.path.map String.data ∧
          kindIdx g1.kind ≤ kindIdx g2.kind)) := by
  constructor
  · unfold diff
    rw [canon_eq_of_reorder hrs hs, canon_eq_of_reorder hrb hb]
  · have hsorted : List.Sorted gapLE (diff s b) := by
      unfold diff sortGaps
      exact List.sorted_insertionSort gapLE _
    refine List.Pairwise.imp ?_ hsorted
    intro a c hac
    rcases hac with h | ⟨h1, h2⟩
    · exact Or.inl h
    · refine Or.inr ⟨h1, ?_⟩
      rcases h2 with h2 | ⟨h2, _⟩
      · omega
      · omega

/-- Witness for C6: a two-child stable document with its children
swapped diffs identically against a fixed beta document, in sorted
order. -/
theorem diff_deterministic_under_key_reordering_witness :
    (diff (.node [("a", .leaf "1"), ("b", .leaf "2")]) (.leaf "x") =
      diff (.node [("b", .leaf "2"), ("a", .leaf "1")]) (.leaf "x")) ∧
    (diff (.node [("a", .leaf "1"), ("b", .leaf "2")]) (.leaf "x")).Pairwise
      (fun g1 g2 =>
        g1.path.map String.data < g2.path.map String.data ∨
          (g1.path.map String.data = g2.path.map String.data ∧
            kindIdx g1.kind ≤ kindIdx g2.kind)) := by
  refine diff_deterministic_under_key_reordering
    (.node [("a", .leaf "1"), ("b", .leaf "2")])
    (.node [("b", .leaf "2"), ("a", .leaf "1")])
    (.leaf "x") (.leaf "x") ?_ ?_ ?_ ?_
  · refine Wf.node (by decide) ?_
    intro p hp
    simp only [List.mem_cons, List.not_mem_nil, or_false] at hp
    rcases hp with rfl | rfl
    · exact Wf.leaf _
    · exact Wf.leaf _
  · exact Wf.leaf _
  · exact Reorder.node
      (ReorderChildren.cons (Reorder.leaf "1")
        (ReorderChildren.cons (Reorder.leaf "2") ReorderChildren.nil))
      (List.Perm.swap ("b", Doc.leaf "2") ("a", Doc.leaf "1") [])
  · exact Reorder.leaf "x"

/-- Modelled from the spec: an Expectation Entry "identifies a specific
resource/method/parameter path and a disposition", where the
dispositions `ignore-addition | ignore-removal | ignore-change`
correspond to the three gap kinds. -/
structure Expectation where
  path : List String
  kind : GapKind
deriving DecidableEq, Repr

/-- Modelled from the spec: "A gap is suppressed iff an Expectation
Entry exists whose path is a prefix-or-exact match of the gap's path and
whose kind matches". -/
def gapMatches (e : Expectation) (g : Gap) : Bool :=
  e.path.isPrefixOf g.path && decide (e.kind = g.kind)

/-- Modelled from the spec: the comparator's
`filter(gaps, expectations) -> (reported, suppressed)` — a gap goes to
`suppressed` when some expectation matches it and to `reported`
otherwise. -/
def filterGaps (gaps : List Gap) (exps : List Expectation) :
    List Gap × List Gap :=
  (gaps.filter fun g => !(exps.any fun e => gapMatches e g),
   gaps.filter fun g => exps.any fun e => gapMatches e g)

/-- C7: `filter` partitions the raw diff output: the two result lists
together are a permutation of the input, and every gap of the input
lands in exactly one of (reported, suppressed), never both. -/
theorem filterGaps_partitions (gaps : List Gap) (exps : List Expectation) :
    ((filterGaps gaps exps).2 ++ (filterGaps gaps exps).1).Perm gaps ∧
    ∀ g ∈ gaps,
      (g ∈ (filterGaps gaps exps).1 ∨ g ∈ (filterGaps gaps exps).2) ∧
      ¬ (g ∈ (filterGaps gaps exps).1 ∧ g ∈ (filterGaps gaps exps).2) := by
  constructor
  · exact List.filter_append_perm _ gaps
  · intro g hg
    constructor
    · by_cases h : (exps.any fun e => gapMatches e g) = true
      · exact Or.inr (List.mem_filter.mpr ⟨hg, h⟩)
      · refine Or.inl (List.mem_filter.mpr ⟨hg, ?_⟩)
        simp [h]
    · rintro ⟨h1, h2⟩
      have hb1 := (List.mem_filter.mp h1).2
      have hb2 := (List.mem_filter.mp h2).2
      simp [hb2] at hb1

/-- Witness for C7: the spec's scenario gap with an empty expectation
set lands in `reported` and not in `suppressed`. -/
theorem filterGaps_partitions_witness :
    ((⟨["instances", "insert"], .added, "present only in beta"⟩ : Gap) ∈
        (filterGaps [⟨["instances", "insert"], .added, "present only in beta"⟩] []).1 ∨
      (⟨["instances", "insert"], .added, "present only in beta"⟩ : Gap) ∈
        (filterGaps [⟨["instances", "insert"], .added, "present only in beta"⟩] []).2) ∧
    ¬ ((⟨["instances", "insert"], .added, "present only in beta"⟩ : Gap) ∈
        (filterGaps [⟨["instances", "insert"], .added, "present only in beta"⟩] []).1 ∧
      (⟨["instances", "insert"], .added, "present only in beta"⟩ : Gap) ∈
        (filterGaps [⟨["instances", "insert"], .added, "present only in beta"⟩] []).2) :=
  (filterGaps_partitions [⟨["instances", "insert"], .added, "present only in beta"⟩] []).2
    ⟨["instances", "insert"], .added, "present only in beta"⟩ (by decide)

/-- Modelled from the spec: a structured-text (YAML-like) value as read
from the expectations file — scalars, sequences and mappings. -/
inductive Yaml where
  | str (s : String)
  | seq (items : List Yaml)
  | map (entries : List (String × Yaml))

/-- Modelled from the spec: the disposition keywords of an expectation
entry, `ignore-addition | ignore-removal | ignore-change`, each
suppressing the corresponding gap kind. -/
def parseDisposition : String → Option GapKind
  | "ignore-addition" => some GapKind.added
  | "ignore-removal" => some GapKind.removed
  | "ignore-change" => some GapKind.changed
  | _ => none

/-- A scalar component of a path sequence. -/
def parseStringItem : Yaml → Option String
  | .str s => some s
  | _ => none

/-- All components of a path sequence, or `none` when one is not a
scalar. -/
def parsePathItems : List Yaml → Option (List String)
  | [] => some []
  | y :: rest =>
      match parseStringItem y, parsePathItems rest with
      | some s, some ss => some (s :: ss)
      | _, _ => none

/-- Modelled from the spec: one entry of the expectations file — a
mapping carrying a `path` (a sequence of strings) and a `kind`
disposition keyword. -/
def parseEntry : Yaml → Option Expectation
  | .map entries =>
      match entries.lookup "path", entries.lookup "kind" with
      | some (.seq items), some (.str k) =>
          match parsePathItems items, parseDisposition k with
          | some pth, some knd => some ⟨pth, knd⟩
          | _, _ => none
      | _, _ => none
  | _ => none

/-- All entries of the expectations file, or `none` when one entry is
not of the expected shape. -/
def parseEntries : List Yaml → Option (List Expectation)
  | [] => some []
  | y :: rest =>
      match parseEntry y, parseEntries rest with
      | some e, some es => some (e :: es)
      | _, _ => none

/-- Modelled from the spec: the expectations file is "a list of entries
each specifying a dotted/sequence path, and a disposition keyword". -/
def parseExpectationsDoc : Yaml → Option (List Expectation)
  | .seq items => parseEntries items
  | _ => none

/-- Modelled from the spec: the error taxonomy of the expectation
store's `load` — missing file, file not parseable as the expected
structured format, or a duplicate path+kind entry. -/
inductive ConfigError where
  | missingFile
  | notParseable
  | duplicateEntry (path : List String) (kind : GapKind)
deriving DecidableEq, Repr

/-- The path+kind identity of an expectation entry, the granularity at
which the spec declares duplicates a hard error. -/
def entryKey (e : Expectation) : List String × GapKind := (e.path, e.kind)

/-- The duplicate check of `load`: entries are accepted one at a time
and an entry whose path+kind was already seen is a hard error, never
merged. -/
def checkDuplicates (seen : List Expectation) :
    List Expectation → Except ConfigError (List Expectation)
  | [] => .ok seen
  | e :: rest =>
      if seen.any fun e2 => decide (e2.path = e.path) && decide (e2.kind = e.kind) then
        .error (.duplicateEntry e.path e.kind)
      else
        checkDuplicates (seen ++ [e]) rest

/-- Modelled from the spec: the Expectation Store's
`load(path) -> set of Expectation Entry`.  The file-system read at the
configured path is modelled by an `Option Yaml` argument: `none` when
the file is missing, `some y` when it holds the structured value `y`. -/
def load (file : Option Yaml) : Except ConfigError (List Expectation) :=
  match file with
  | none => .error .missingFile
  | some y =>
      match parseExpectationsDoc y with
      | none => .error .notParseable
      | some es => checkDuplicates [] es

theorem checkDuplicates_ok : ∀ (rest seen : List Expectation),
    ((seen ++ rest).map entryKey).Nodup →
    checkDuplicates seen rest = .ok (seen ++ rest) := by
  intro rest
  induction rest with
  | nil =>
      intro seen _
      simp [checkDuplicates]
  | cons e rest ih =>
      intro seen h
      have hmaps : ((seen.map entryKey) ++ entryKey e :: rest.map entryKey).Nodup := by
        simpa using h
      have hdisj := (List.nodup_append.mp hmaps).2.2
      have hnotin : entryKey e ∉ seen.map entryKey := by
        intro hmem
        exact hdisj hmem (by simp)
      have hany : (seen.any fun e2 =>
          decide (e2.path = e.path) && decide (e2.kind = e.kind)) = false := by
        rw [List.any_eq_false]
        intro e2 he2
        simp only [Bool.and_eq_true, decide_eq_true_eq, not_and]
        intro hp hk
        exact hnotin (List.mem_map.mpr ⟨e2, he2, by simp [entryKey, hp, hk]⟩)
      have hre : ((seen ++ [e]) ++ rest).map entryKey = (seen ++ e :: rest).map entryKey := by
        simp
      rw [checkDuplicates, hany]
      simp only [Bool.false_eq_true, if_false]
      have := ih (seen ++ [e]) (by rw [hre]; exact h)
      simpa using this

theorem checkDuplicates_error : ∀ (rest seen : List Expectation),
    (seen.map entryKey).Nodup →
    ¬ ((seen ++ rest).map entryKey).Nodup →
    ∃ err, checkDuplicates seen rest = .error err := by
  intro rest
  induction rest with
  | nil =>
      intro seen hs hn
      exact absurd (by simpa using hs) hn
  | cons e rest ih =>
      intro seen hs hn
      by_cases hany : (seen.any fun e2 =>
          decide (e2.path = e.path) && decide (e2.kind = e.kind)) = true
      · refine ⟨.duplicateEntry e.path e.kind, ?_⟩
        rw [checkDuplicates, hany]
        simp
      · have hany2 : (seen.any fun e2 =>
            decide (e2.path = e.path) && decide (e2.kind = e.kind)) = false := by
          simpa using hany
        have hnotin : entryKey e ∉ seen.map entryKey := by
          intro hmem
          obtain ⟨e2, he2, hkey⟩ := List.mem_map.mp hmem
          have := List.any_eq_false.mp hany2 e2 he2
          simp only [Bool.and_eq_true, decide_eq_true_eq, not_and] at this
          have hp : e2.path = e.path := congrArg Prod.fst hkey
          have hk : e2.kind = e.kind := congrArg Prod.snd hkey
          exact this hp hk
        have hs2 : ((seen ++ [e]).map entryKey).Nodup := by
          simp only [List.map_append, List.map_cons, List.map_nil]
          rw [List.nodup_append]
          refine ⟨hs, List.nodup_singleton _, ?_⟩
          intro x hx hx2
          simp only [List.mem_singleton] at hx2
          subst hx2
          exact hnotin hx
        have hn2 : ¬ (((seen ++ [e]) ++ rest).map entryKey).Nodup := by
          intro hcontra
          apply hn
          have hre : (seen ++ [e]) ++ rest = seen ++ e :: rest := by simp
          rw [hre] at hcontra
          exact hcontra
        obtain ⟨err, herr⟩ := ih (seen ++ [e]) hs2 hn2
        refine ⟨err, ?_⟩
        rw [checkDuplicates, hany2]
        simpa using herr

/-- C8: `load` fails with a `ConfigError` if and only if the file is
missing, not parseable as the expected structured format, or contains a
duplicate path+kind entry; and on a duplicate-free parse it returns the
parsed entries unchanged — duplicates are a hard error, never silently
merged. -/
theorem load_config_error_iff (file : Option Yaml) :
    ((∃ err, load file = .error err) ↔
      (file = none ∨
        (∃ y, file = some y ∧ parseExpectationsDoc y = none) ∨
        (∃ y es, file = some y ∧ parseExpectationsDoc y = some es ∧
          ¬ (es.map entryKey).Nodup))) ∧
    (∀ y es, file = some y → parseExpectationsDoc y = some es →
      (es.map entryKey).Nodup → load file = .ok es) := by
  cases file with
  | none =>
      refine ⟨⟨fun _ => Or.inl rfl, fun _ => ⟨.missingFile, rfl⟩⟩, ?_⟩
      intro y es h
      cases h
  | some y =>
      cases hp : parseExpectationsDoc y with
      | none =>
          constructor
          · constructor
            · intro _
              exact Or.inr (Or.inl ⟨y, rfl, hp⟩)
            · intro _
              exact ⟨.notParseable, by simp [load, hp]⟩
          · intro y2 es h1 h2
            cases h1
            rw [hp] at h2
            cases h2
      | some es =>
          by_cases hnd : (es.map entryKey).Nodup
          · constructor
            · constructor
              · rintro ⟨err, herr⟩
                rw [load.eq_def] at herr
                simp only [hp] at herr
                rw [checkDuplicates_ok es [] (by simpa using hnd)] at herr
                cases herr
              · rintro (h | ⟨y2, h1, h2⟩ | ⟨y2, es2, h1, h2, h3⟩)
                · cases h
                · cases h1
                  rw [hp] at h2
                  cases h2
                · cases h1
                  rw [hp] at h2
                  cases h2
                  exact absurd hnd h3
            · intro y2 es2 h1 h2 _
              cases h1
              rw [hp] at h2
              cases h2
              rw [load.eq_def]
              simp only [hp]
              have := checkDuplicates_ok es [] (by simpa using hnd)
              simpa using this
          · constructor
            · constructor
              · intro _
                exact Or.inr (Or.inr ⟨y, es, rfl, hp, hnd⟩)
              · intro _
                obtain ⟨err, herr⟩ :=
                  checkDuplicates_error es [] (by simp) (by simpa using hnd)
                refine ⟨err, ?_⟩
                rw [load.eq_def]
                simp only [hp]
                exact herr
            · intro y2 es2 h1 h2 hnd2
              cases h1
              rw [hp] at h2
              cases h2
              exact absurd hnd2 hnd

/-- Witness for C8: a one-entry expectations file with the spec's
scenario entry parses, has no duplicate, and loads to exactly that
entry. -/
theorem load_config_error_iff_witness :
    load (some (.seq [.map [("path", .seq [.str "instances", .str "insert"]),
        ("kind", .str "ignore-addition")]])) =
      .ok [⟨["instances", "insert"], .added⟩] :=
  (load_config_error_iff (some (.seq [.map [("path",
      .seq [.str "instances", .str "insert"]), ("kind", .str "ignore-addition")]]))).2
    (.seq [.map [("path", .seq [.str "instances", .str "insert"]),
      ("kind", .str "ignore-addition")]])
    [⟨["instances", "insert"], .added⟩] rfl rfl (by decide)

/-- Witness for C5: the spec scenario stable document diffed against
itself yields the empty Gap Set. -/
theorem diff_identical_empty_witness :
    diff (.node [("instances", .node [("list", .node [("verb", .leaf "GET")])])])
      (.node [("instances", .node [("list", .node [("verb", .leaf "GET")])])]) = [] :=
  diff_identical_empty
    (.node [("instances", .node [("list", .node [("verb", .leaf "GET")])])])
